import Mathlib

/-!
Verification of the keyword clustering engine of the blog-writer worker
repository (apps/workers/workers/cluster_worker.py) against its
natural-language specification.

Modelling conventions:
* Python floats are modelled as exact rationals (`Rat`); the arithmetic the
  claims are about (differences, argmin, arithmetic means) is structural and
  does not depend on rounding.
* `sklearn` k-means is an external library call; it is modelled as an oracle
  (`KMeansOracle`) giving, for each candidate cluster count, the resulting
  inertia, the per-keyword labels and the centroids.  With a fixed
  `random_state` it is a deterministic function of the fitted data, which is
  exactly what the oracle represents.
* `numpy` helpers (`np.diff`, `np.argmin`, `np.mean`, `np.where`) are modelled
  by their documented semantics on lists.
* Python truthiness in `x or default` is modelled faithfully: an `int`/`float`
  value of `0` is falsy, so `row or default` replaces both NULL and zero.
* Python `sorted` is a stable sort; it is modelled by the (stable)
  `List.insertionSort`, whose output any stable sort uniquely determines.
* The database is modelled as in-memory lists of rows; the SQL UPDATE of
  `save_clusters` is modelled row by row following its WHERE clause.
-/

/-- A keyword as returned by `get_keywords_for_clustering` (after the
NULL-defaulting of line 78-85 of cluster_worker.py). -/
structure Keyword where
  id : String
  term : String
  search_volume : Int
  difficulty : Int
  cpc : Rat
deriving DecidableEq

/-- A raw `keywords` table row as read by the SELECT of
`get_keywords_for_clustering` (nullable columns are `Option`). -/
structure KeywordRow where
  id : String
  term : String
  search_volume : Option Int
  difficulty : Option Int
  cpc : Option Rat
deriving DecidableEq

/-- The `KeywordCluster` dataclass of cluster_worker.py. -/
structure KeywordCluster where
  id : String
  name : String
  description : String
  keywords : List String
  embedding : Option (List Rat)
  centroid : Option (List Rat)
  size : Nat
  avg_search_volume : Rat
  avg_difficulty : Rat
  avg_cpc : Rat
deriving DecidableEq

/-- The clustering parameters initialised in `ClusterWorker.__init__`. -/
structure ClusterConfig where
  min_cluster_size : Nat
  similarity_threshold : Rat
  max_clusters : Nat

/-- The defaults of `ClusterWorker.__init__`:
`min_cluster_size = 3`, `similarity_threshold = 0.7`, `max_clusters = 20`. -/
def default_config : ClusterConfig :=
  { min_cluster_size := 3, similarity_threshold := 7 / 10, max_clusters := 20 }

/-- Oracle for the external `sklearn.cluster.KMeans` calls on a fixed fitted
embedding matrix: `inertia k` is `KMeans(n_clusters=k, random_state=42,
n_init=10).fit(embeddings).inertia_`, `labels k` is the label list returned by
`fit_predict`, and `centers k i` is `cluster_centers_[i]`.  With the fixed
seed these are deterministic functions, which the oracle encodes. -/
structure KMeansOracle where
  inertia : Nat → Rat
  labels : Nat → List Nat
  centers : Nat → Nat → List Rat

/-- Python `value or default` on a nullable integer column: `None` and the
falsy value `0` are both replaced by the default. -/
def py_or_int (v : Option Int) (d : Int) : Int :=
  match v with
  | none => d
  | some x => if x = 0 then d else x

/-- Python `value or default` on a nullable float column: `None` and the
falsy value `0.0` are both replaced by the default. -/
def py_or_rat (v : Option Rat) (d : Rat) : Rat :=
  match v with
  | none => d
  | some x => if x = 0 then d else x

/-- The per-row dictionary construction of `get_keywords_for_clustering`
(cluster_worker.py lines 78-85): `search_volume = row[2] or 0`,
`difficulty = row[3] or 50`, `cpc = row[4] or 0.0`. -/
def row_to_keyword (r : KeywordRow) : Keyword :=
  { id := r.id
    term := r.term
    search_volume := py_or_int r.search_volume 0
    difficulty := py_or_int r.difficulty 50
    cpc := py_or_rat r.cpc 0 }

/-- `get_keywords_for_clustering` applied to the rows the SELECT returned. -/
def get_keywords_for_clustering (rows : List KeywordRow) : List Keyword :=
  rows.map row_to_keyword

/-- Helper for Python `str.split()`: walk the character list, accumulating the
current word (reversed) and emitting it at every whitespace run boundary. -/
def split_ws_aux : List Char → List Char → List String
  | [], acc => if acc.isEmpty then [] else [String.mk acc.reverse]
  | c :: cs, acc =>
    if c.isWhitespace then
      (if acc.isEmpty then [] else [String.mk acc.reverse]) ++ split_ws_aux cs []
    else split_ws_aux cs (c :: acc)

/-- Python `term.lower().split()`: lowercase every character, split on runs of
whitespace, drop empty fragments. -/
def py_lower_split (s : String) : List String :=
  split_ws_aux (s.toList.map Char.toLower) []

/-- One `word_counts[word] = word_counts.get(word, 0) + 1` step on a Python
dict modelled as an insertion-ordered association list. -/
def incr_count (counts : List (String × Nat)) (w : String) : List (String × Nat) :=
  if counts.any (fun p => decide (p.1 = w)) then
    counts.map (fun p => if p.1 = w then (p.1, p.2 + 1) else p)
  else
    counts ++ [(w, 1)]

/-- First-occurrence deduplication (the key order of a Python dict). -/
def dedup_first : List String → List String
  | [] => []
  | x :: xs => x :: (dedup_first xs).filter (fun y => decide (y ≠ x))

/-- Number of occurrences of `w` in `l`. -/
def count_in (l : List String) (w : String) : Nat :=
  l.countP (fun x => decide (x = w))

/-- `ClusterWorker._generate_cluster_name` (cluster_worker.py lines 194-216):
tokenize each member term by `term.lower().split()`, count tokens of length
> 2 into a dict, stably sort the dict items by count descending
(`sorted(..., key=lambda x: x[1], reverse=True)`), take the first 3 and join;
with no surviving token fall back to `f"Cluster: {terms[0]}"`. -/
def generate_cluster_name (keywords : List Keyword) : String :=
  let terms := keywords.map (fun k => k.term)
  let all_words := terms.foldl (fun acc t => acc ++ py_lower_split t) []
  let word_counts :=
    all_words.foldl (fun counts w => if 2 < w.length then incr_count counts w else counts) []
  let common_words :=
    (List.insertionSort (fun p q : String × Nat => q.2 ≤ p.2) word_counts).take 3
  if common_words.isEmpty then "Cluster: " ++ terms.headD ""
  else "Cluster: " ++ " ".intercalate (common_words.map Prod.fst)

/-- The naming heuristic as worded by the specification: lowercase and split
every member term, discard tokens of length ≤ 2, count token frequency across
the whole cluster, take the top 3 most frequent tokens (stable, frequency
descending) and join them after the "Cluster: " prefix. -/
def generate_cluster_name_spec (keywords : List Keyword) : String :=
  let terms := keywords.map (fun k => k.term)
  let tokens := (terms.map py_lower_split).flatten
  let long_tokens := tokens.filter (fun w => decide (2 < w.length))
  let ranked :=
    List.insertionSort (fun p q : String × Nat => q.2 ≤ p.2)
      ((dedup_first long_tokens).map (fun w => (w, count_in long_tokens w)))
  let top := ranked.take 3
  if top.isEmpty then "Cluster: " ++ terms.headD ""
  else "Cluster: " ++ " ".intercalate (top.map Prod.fst)

/-- `ClusterWorker._generate_cluster_description` (lines 218-225). -/
def generate_cluster_description (keywords : List Keyword) : String :=
  let terms := keywords.map (fun k => k.term)
  if terms.length ≤ 3 then
    "Keywords related to: " ++ ", ".intercalate terms
  else
    "Cluster of " ++ toString terms.length ++ " related keywords including: "
      ++ ", ".intercalate (terms.take 3) ++ "..."

/-- `np.diff`: successive differences. -/
def np_diff (l : List Rat) : List Rat :=
  List.zipWith (fun a b => b - a) l l.tail

/-- `np.argmin`: index of the first occurrence of the minimum value
(0 on an empty list, where numpy raises instead — unreachable at the call
site, see `find_elbow_point_index_inbounds`). -/
def np_argmin (l : List Rat) : Nat :=
  l.findIdx (fun x => decide (∀ y ∈ l, x ≤ y))

/-- `ClusterWorker._find_elbow_point` (cluster_worker.py lines 180-192):
`diffs = np.diff(inertias)`, `diff_diffs = np.diff(diffs)`,
`elbow_idx = np.argmin(diff_diffs) + 1`, `return k_values[elbow_idx]`,
with `k_values[0] if k_values else 2` when fewer than 3 inertia samples. -/
def find_elbow_point (k_values : List Nat) (inertias : List Rat) : Nat :=
  if inertias.length < 3 then k_values.headD 2
  else k_values.getD (np_argmin (np_diff (np_diff inertias)) + 1) 0

/-- The first position whose value is ≤ every value of the list, read off the
spec's "the position whose second-difference value is most negative". -/
def spec_argmin (l : List Rat) : Nat :=
  ((List.range l.length).find?
    (fun i => (List.range l.length).all (fun j => decide (l.getD i 0 ≤ l.getD j 0)))).getD 0

/-- "the smallest candidate k, or 2 when there are no candidates". -/
def smallest_or_two : List Nat → Nat
  | [] => 2
  | x :: xs => xs.foldl min x

/-- The elbow selection as worded by the specification: with fewer than 3
inertia samples the smallest candidate k (2 with no candidates); otherwise
take first differences, then second differences, pick the position whose
second-difference value is most negative, offset it by one and index the
candidate list there. -/
def find_elbow_point_spec (k_values : List Nat) (inertias : List Rat) : Nat :=
  if inertias.length < 3 then smallest_or_two k_values
  else k_values.getD (spec_argmin (np_diff (np_diff inertias)) + 1) 0

/-- The candidate k range of `cluster_keywords` (lines 124-131):
`max_k = min(max_clusters, n // min_cluster_size)`, floored at 2, and
`k_values = range(2, max_k + 1)`. -/
def candidate_ks (cfg : ClusterConfig) (n : Nat) : List Nat :=
  let m := min cfg.max_clusters (n / cfg.min_cluster_size)
  let max_k := if m < 2 then 2 else m
  List.range' 2 (max_k - 1)

/-- The k selected by the elbow heuristic over the recorded inertias
(lines 130-139). -/
def optimal_k (km : KMeansOracle) (cfg : ClusterConfig) (n : Nat) : Nat :=
  let ks := candidate_ks cfg n
  find_elbow_point ks (ks.map km.inertia)

/-- `np.where(cluster_labels == i)` followed by `keywords[j] for j in ...`
(lines 148-151): the keywords whose k-means label is `i`, in input order. -/
def group_members (kws : List Keyword) (labels : List Nat) (i : Nat) : List Keyword :=
  ((kws.zip labels).filter (fun p => decide (p.2 = i))).map Prod.fst

/-- `np.mean` on a list of numbers. -/
def np_mean (l : List Rat) : Rat :=
  l.sum / (l.length : Rat)

/-- Construction of one `KeywordCluster` (lines 154-170).  `ts i` is the
`datetime.utcnow().strftime(...)` string at the moment group `i` is built. -/
def mk_cluster (ts : Nat → String) (km : KMeansOracle) (k i : Nat)
    (members : List Keyword) : KeywordCluster :=
  { id := "cluster_" ++ toString i ++ "_" ++ ts i
    name := generate_cluster_name members
    description := generate_cluster_description members
    keywords := members.map (fun kw => kw.term)
    embedding := none
    centroid := some (km.centers k i)
    size := members.length
    avg_search_volume := np_mean (members.map (fun kw => (kw.search_volume : Rat)))
    avg_difficulty := np_mean (members.map (fun kw => (kw.difficulty : Rat)))
    avg_cpc := np_mean (members.map (fun kw => kw.cpc)) }

/-- `ClusterWorker.cluster_keywords` (cluster_worker.py lines 115-174):
return `[]` when fewer than `min_cluster_size` keywords; otherwise select k
via the elbow heuristic, label every keyword with the final k-means fit, and
keep exactly the groups of size ≥ `min_cluster_size` as clusters. -/
def cluster_keywords (km : KMeansOracle) (ts : Nat → String) (cfg : ClusterConfig)
    (kws : List Keyword) : List KeywordCluster :=
  if kws.length < cfg.min_cluster_size then []
  else
    (List.range (optimal_k km cfg kws.length)).filterMap (fun i =>
      if cfg.min_cluster_size ≤
          (group_members kws (km.labels (optimal_k km cfg kws.length)) i).length then
        some (mk_cluster ts km (optimal_k km cfg kws.length) i
          (group_members kws (km.labels (optimal_k km cfg kws.length)) i))
      else none)

/-- A `keywords` table row as touched by `save_clusters`. -/
structure DbKeyword where
  id : String
  term : String
  org_id : String
  project_id : Option String
  cluster_id : Option String
deriving DecidableEq

/-- A `clusters` table row as inserted by `save_clusters`. -/
structure DbCluster where
  id : String
  name : String
  description : String
  keywords : List String
  embedding : Option (List Rat)
  org_id : String
  project_id : Option String
deriving DecidableEq

/-- The two tables `save_clusters` writes. -/
structure Db where
  clusters : List DbCluster
  keywords : List DbKeyword
deriving DecidableEq

/-- The UPDATE of cluster_worker.py lines 256-266:
`SET cluster_id = :cluster_id WHERE term = :keyword AND org_id = :org_id`
(note: no project_id condition). -/
def update_keyword_cluster (cid t org : String) (rows : List DbKeyword) : List DbKeyword :=
  rows.map (fun r =>
    if r.term = t ∧ r.org_id = org then { r with cluster_id := some cid } else r)

/-- One iteration of the cluster loop of `save_clusters` (lines 233-266):
INSERT the cluster row, then UPDATE every member term. -/
def save_cluster_one (org : String) (proj : Option String) (db : Db)
    (c : KeywordCluster) : Db :=
  let db1 : Db :=
    { db with clusters := db.clusters ++
        [{ id := c.id, name := c.name, description := c.description,
           keywords := c.keywords, embedding := c.centroid,
           org_id := org, project_id := proj }] }
  { db1 with keywords :=
      c.keywords.foldl (fun rows t => update_keyword_cluster c.id t org rows) db1.keywords }

/-- `ClusterWorker.save_clusters` (cluster_worker.py lines 227-271). -/
def save_clusters (clusters : List KeywordCluster) (org : String)
    (proj : Option String) (db : Db) : Db :=
  clusters.foldl (save_cluster_one org proj) db

/-! ### Membership characterization of `cluster_keywords` -/

/-- A cluster is returned by `cluster_keywords` exactly when the input is
large enough and the cluster is built from a k-means group of index below the
selected k whose size reaches the minimum. -/
theorem mem_cluster_keywords {km : KMeansOracle} {ts : Nat → String}
    {cfg : ClusterConfig} {kws : List Keyword} {c : KeywordCluster} :
    c ∈ cluster_keywords km ts cfg kws ↔
      ¬ kws.length < cfg.min_cluster_size ∧
      ∃ i, i < optimal_k km cfg kws.length ∧
        cfg.min_cluster_size ≤
          (group_members kws (km.labels (optimal_k km cfg kws.length)) i).length ∧
        c = mk_cluster ts km (optimal_k km cfg kws.length) i
              (group_members kws (km.labels (optimal_k km cfg kws.length)) i) := by
  constructor
  · intro hc
    unfold cluster_keywords at hc
    split at hc
    · simp at hc
    · rename_i h
      rw [List.mem_filterMap] at hc
      obtain ⟨i, hi, hf⟩ := hc
      rw [List.mem_range] at hi
      refine ⟨h, i, hi, ?_, ?_⟩
      · by_contra hlt
        rw [if_neg hlt] at hf
        exact Option.noConfusion hf
      · split at hf
        · exact (Option.some.inj hf).symm
        · exact Option.noConfusion hf
  · rintro ⟨h, i, hi, hsz, rfl⟩
    unfold cluster_keywords
    rw [if_neg h, List.mem_filterMap]
    exact ⟨i, List.mem_range.mpr hi, by rw [if_pos hsz]⟩

/-! ### C3: too few keywords -/

/-- C3: for every input keyword list with fewer than the configured minimum
(default 3) keywords, `cluster_keywords` returns an empty cluster list (the
function is total, so no error is raised), and saving that empty result
leaves every keyword row of the database — in particular every cluster
assignment — unchanged. -/
theorem cluster_keywords_small_input (km : KMeansOracle) (ts : Nat → String)
    (cfg : ClusterConfig) (kws : List Keyword) (org : String) (proj : Option String)
    (db : Db) (h : kws.length < cfg.min_cluster_size) :
    cluster_keywords km ts cfg kws = [] ∧
    save_clusters (cluster_keywords km ts cfg kws) org proj db = db := by
  have h1 : cluster_keywords km ts cfg kws = [] := by
    unfold cluster_keywords
    rw [if_pos h]
  exact ⟨h1, by rw [h1]; rfl⟩

/-- Witness for C3 at a concrete two-keyword input with the default
configuration (minimum cluster size 3). -/
theorem cluster_keywords_small_input_witness :
    ([⟨"a", "alpha", 1, 1, 0⟩, ⟨"b", "beta", 2, 2, 0⟩] : List Keyword).length
        < default_config.min_cluster_size ∧
    (cluster_keywords ⟨fun _ => 0, fun _ => [], fun _ _ => []⟩ (fun _ => "T")
        default_config [⟨"a", "alpha", 1, 1, 0⟩, ⟨"b", "beta", 2, 2, 0⟩] = [] ∧
      save_clusters
        (cluster_keywords ⟨fun _ => 0, fun _ => [], fun _ _ => []⟩ (fun _ => "T")
          default_config [⟨"a", "alpha", 1, 1, 0⟩, ⟨"b", "beta", 2, 2, 0⟩])
        "org" none ⟨[], []⟩ = ⟨[], []⟩) :=
  ⟨by decide,
   cluster_keywords_small_input ⟨fun _ => 0, fun _ => [], fun _ _ => []⟩ (fun _ => "T")
     default_config [⟨"a", "alpha", 1, 1, 0⟩, ⟨"b", "beta", 2, 2, 0⟩] "org" none
     ⟨[], []⟩ (by decide)⟩

/-! ### C5: cluster averages -/

/-- C5: every returned cluster carries a member keyword list whose terms are
exactly the cluster's member terms (in order), whose length is the cluster
size, and over exactly which the cluster's `avg_search_volume`,
`avg_difficulty` and `avg_cpc` are the arithmetic means of the respective
fields (exact rational arithmetic, subsuming the floating-point tolerance). -/
theorem cluster_keywords_averages (km : KMeansOracle) (ts : Nat → String)
    (cfg : ClusterConfig) (kws : List Keyword) :
    ∀ c ∈ cluster_keywords km ts cfg kws, ∃ members : List Keyword,
      (∀ kw ∈ members, kw ∈ kws) ∧
      c.keywords = members.map (fun kw => kw.term) ∧
      c.size = members.length ∧
      c.avg_search_volume = np_mean (members.map (fun kw => (kw.search_volume : Rat))) ∧
      c.avg_difficulty = np_mean (members.map (fun kw => (kw.difficulty : Rat))) ∧
      c.avg_cpc = np_mean (members.map (fun kw => kw.cpc)) := by
  intro c hc
  rw [mem_cluster_keywords] at hc
  obtain ⟨-, i, -, -, rfl⟩ := hc
  refine ⟨group_members kws (km.labels (optimal_k km cfg kws.length)) i,
    ?_, rfl, rfl, rfl, rfl, rfl⟩
  intro kw hkw
  unfold group_members at hkw
  rw [List.mem_map] at hkw
  obtain ⟨p, hp, rfl⟩ := hkw
  rw [List.mem_filter] at hp
  have hz := hp.1
  rcases p with ⟨kw, lab⟩
  exact (List.of_mem_zip hz).1

/-! ### C7: NULL-defaulting of fetched keyword rows -/

/-- C7 counterexample: a stored, non-null difficulty of 0 IS replaced by the
default 50, because Python `row[3] or 50` treats the integer 0 as falsy.
This contradicts the claim that the returned difficulty equals the stored
value whenever it is non-null. -/
theorem row_to_keyword_difficulty_counterexample :
    (⟨"k1", "term", some 5, some 0, some 1⟩ : KeywordRow).difficulty = some 0 ∧
    (row_to_keyword ⟨"k1", "term", some 5, some 0, some 1⟩).difficulty = 50 ∧
    (50 : Int) ≠ 0 :=
  ⟨rfl, rfl, by decide⟩

/-- C7 amended: the returned search_volume equals the stored value when
non-null and 0 when null (a stored 0 coincides with the default, so the
clause holds extensionally), the returned cpc likewise equals the stored
value when non-null and 0.0 when null, but the returned difficulty equals the
stored value only when it is non-null AND nonzero, and is 50 when the stored
value is null OR zero (Python falsiness conflates the two). -/
theorem row_to_keyword_defaults (r : KeywordRow) :
    (row_to_keyword r).search_volume = r.search_volume.getD 0 ∧
    (row_to_keyword r).difficulty =
      (match r.difficulty with
       | none => 50
       | some v => if v = 0 then 50 else v) ∧
    (row_to_keyword r).cpc = r.cpc.getD 0 := by
  refine ⟨?_, ?_, ?_⟩
  · rcases hv : r.search_volume with - | v
    · simp [row_to_keyword, py_or_int, hv]
    · by_cases hv0 : v = 0 <;> simp [row_to_keyword, py_or_int, hv, hv0]
  · rcases hv : r.difficulty with - | v
    · simp [row_to_keyword, py_or_int, hv]
    · by_cases hv0 : v = 0 <;> simp [row_to_keyword, py_or_int, hv, hv0]
  · rcases hv : r.cpc with - | v
    · simp [row_to_keyword, py_or_rat, hv]
    · by_cases hv0 : v = 0 <;> simp [row_to_keyword, py_or_rat, hv, hv0]

/-! ### C8: determinism up to cluster ids -/

/-- C8: `cluster_keywords` is a pure function of the keyword set and the
(seeded, hence deterministic) k-means oracle; the only run-dependent input is
the timestamp used inside the cluster ids.  Two runs on the same keyword set
with the same oracle produce the same number of clusters and the same
member-term partition, i.e. agree up to cluster-id renaming. -/
theorem cluster_keywords_deterministic (km : KMeansOracle) (cfg : ClusterConfig)
    (kws : List Keyword) (ts₁ ts₂ : Nat → String) :
    (cluster_keywords km ts₁ cfg kws).length
      = (cluster_keywords km ts₂ cfg kws).length ∧
    (cluster_keywords km ts₁ cfg kws).map (fun c => c.keywords)
      = (cluster_keywords km ts₂ cfg kws).map (fun c => c.keywords) := by
  have hmap : ∀ ts : Nat → String,
      (cluster_keywords km ts cfg kws).map (fun c => c.keywords)
        = if kws.length < cfg.min_cluster_size then []
          else (List.range (optimal_k km cfg kws.length)).filterMap (fun i =>
            if cfg.min_cluster_size ≤
                (group_members kws (km.labels (optimal_k km cfg kws.length)) i).length then
              some ((group_members kws (km.labels (optimal_k km cfg kws.length)) i).map
                (fun kw => kw.term))
            else none) := by
    intro ts
    unfold cluster_keywords
    split
    · rfl
    · rw [List.map_filterMap]
      refine List.filterMap_congr ?_
      intro i _
      split
      · rfl
      · rfl
  have h2 := (hmap ts₁).trans (hmap ts₂).symm
  refine ⟨?_, h2⟩
  have h3 := congrArg List.length h2
  simpa using h3

/-! ### C9: cross-project cluster assignment in `save_clusters` -/

/-- The database before the C9 scenario: organization "O" has the term "x"
both in project "A" (unclustered) and in project "B" (unclustered), plus two
more unclustered project-"A" keywords. -/
def c9_db : Db :=
  { clusters := []
    keywords :=
      [ { id := "id1", term := "x", org_id := "O", project_id := some "A", cluster_id := none }
      , { id := "id2", term := "y", org_id := "O", project_id := some "A", cluster_id := none }
      , { id := "id3", term := "z", org_id := "O", project_id := some "A", cluster_id := none }
      , { id := "id4", term := "x", org_id := "O", project_id := some "B", cluster_id := none } ] }

/-- A cluster as produced by a clustering run scoped to organization "O",
project "A", whose member terms are the three project-"A" keywords. -/
def c9_cluster : KeywordCluster :=
  { id := "c1", name := "Cluster: x", description := "d", keywords := ["x", "y", "z"],
    embedding := none, centroid := some [], size := 3,
    avg_search_volume := 0, avg_difficulty := 0, avg_cpc := 0 }

/-- C9 fails on the code: the UPDATE of `save_clusters` filters on term and
org_id only (no project_id condition), so after a run scoped to organization
"O" and project "A", the project-"B" keyword sharing the member term "x" has
had its cluster reference set to the project-"A" cluster — a keyword whose
cluster reference was set by the run but which does not belong to the same
project as the cluster it references. -/
theorem save_clusters_cross_project_assignment :
    ((save_clusters [c9_cluster] "O" (some "A") c9_db).keywords.getD 3
        ⟨"", "", "", none, none⟩).cluster_id = some "c1" ∧
    ((save_clusters [c9_cluster] "O" (some "A") c9_db).keywords.getD 3
        ⟨"", "", "", none, none⟩).id = "id4" ∧
    ((save_clusters [c9_cluster] "O" (some "A") c9_db).keywords.getD 3
        ⟨"", "", "", none, none⟩).project_id = some "B" ∧
    ((save_clusters [c9_cluster] "O" (some "A") c9_db).clusters.getD 0
        ⟨"", "", "", [], none, "", none⟩).id = "c1" ∧
    ((save_clusters [c9_cluster] "O" (some "A") c9_db).clusters.getD 0
        ⟨"", "", "", [], none, "", none⟩).project_id = some "A" ∧
    (some "B" : Option String) ≠ some "A" :=
  ⟨rfl, rfl, rfl, rfl, rfl, by decide⟩

/-! ### Elbow point: argmin and difference lemmas (C4, C10) -/

/-- `np.diff` shortens a list by one. -/
theorem np_diff_length (l : List Rat) : (np_diff l).length = l.length - 1 := by
  unfold np_diff
  rw [List.length_zipWith, List.length_tail]
  exact min_eq_right (Nat.sub_le _ _)

/-- Every nonempty list of rationals has a minimal element. -/
theorem exists_min_mem : ∀ l : List Rat, l ≠ [] → ∃ x ∈ l, ∀ y ∈ l, x ≤ y := by
  intro l
  induction l with
  | nil => intro h; exact absurd rfl h
  | cons a l ih =>
    intro _
    cases l with
    | nil => exact ⟨a, by simp, by simp⟩
    | cons b t =>
      obtain ⟨m, hm, hmin⟩ := ih (by simp)
      rcases le_total a m with hle | hle
      · refine ⟨a, by simp, ?_⟩
        intro y hy
        rcases List.mem_cons.mp hy with rfl | hy
        · exact le_refl _
        · exact hle.trans (hmin y hy)
      · refine ⟨m, List.mem_cons_of_mem _ hm, ?_⟩
        intro y hy
        rcases List.mem_cons.mp hy with rfl | hy
        · exact hle
        · exact hmin y hy

/-- On a nonempty list, `np_argmin` is a valid index. -/
theorem np_argmin_lt_length {l : List Rat} (h : l ≠ []) : np_argmin l < l.length := by
  obtain ⟨x, hx, hmin⟩ := exists_min_mem l h
  exact List.findIdx_lt_length_of_exists ⟨x, hx, by simpa using hmin⟩

/-- `find?` over an arithmetic range returns the first index satisfying the
predicate. -/
theorem find?_range'_eq_some {r : Nat → Bool} :
    ∀ m s i₀ : Nat, s ≤ i₀ → i₀ < s + m → r i₀ = true →
      (∀ j, s ≤ j → j < i₀ → r j = false) →
      (List.range' s m).find? r = some i₀ := by
  intro m
  induction m with
  | zero => intro s i₀ h1 h2 _ _; omega
  | succ m ih =>
    intro s i₀ h1 h2 hr hmin
    rw [List.range'_succ]
    by_cases hs : r s = true
    · rw [List.find?_cons_of_pos _ hs]
      have hsi : s = i₀ := by
        by_contra hne
        have hlt : s < i₀ := lt_of_le_of_ne h1 hne
        have hfalse := hmin s (le_refl _) hlt
        rw [hs] at hfalse
        exact Bool.noConfusion hfalse
      rw [hsi]
    · rw [List.find?_cons_of_neg _ hs]
      have hsi : s ≠ i₀ := by
        rintro rfl
        exact hs hr
      exact ih (s + 1) i₀ (by omega) (by omega) hr (fun j hj1 hj2 => hmin j (by omega) hj2)

/-- The source-side `np_argmin` (first index whose element is minimal, found
by scanning the list) coincides with the spec-side `spec_argmin` (first
position whose value is ≤ the value at every position). -/
theorem np_argmin_eq_spec_argmin (l : List Rat) : np_argmin l = spec_argmin l := by
  rcases eq_or_ne l [] with rfl | hne
  · rfl
  · have hlt : np_argmin l < l.length := np_argmin_lt_length hne
    have hp : ∀ y ∈ l, l[np_argmin l] ≤ y := by
      have hget := @List.findIdx_getElem _ (fun x => decide (∀ y ∈ l, x ≤ y)) l hlt
      simpa using hget
    have hq : ∀ j, j < np_argmin l → ¬ ∀ y ∈ l, l.getD j 0 ≤ y := by
      intro j hj
      have hjl : j < l.length := hj.trans hlt
      have hfalse := @List.not_of_lt_findIdx _ (fun x => decide (∀ y ∈ l, x ≤ y)) l j hj
      rw [List.getD_eq_getElem _ _ hjl]
      simpa using hfalse
    unfold spec_argmin
    rw [List.range_eq_range']
    rw [find?_range'_eq_some l.length 0 (np_argmin l) (Nat.zero_le _)
      (by omega) ?_ ?_]
    · rfl
    · rw [List.all_eq_true]
      intro j hj
      have hjn : j < l.length := by
        have hb := List.mem_range'_1.mp hj
        omega
      rw [decide_eq_true_eq, List.getD_eq_getElem _ _ hlt, List.getD_eq_getElem _ _ hjn]
      exact hp _ (List.getElem_mem hjn)
    · intro j _ hj
      rw [← Bool.not_eq_true, List.all_eq_true]
      intro habs
      apply hq j hj
      intro y hy
      rw [List.mem_iff_getElem] at hy
      obtain ⟨n, hn, rfl⟩ := hy
      have hmem := habs n (List.mem_range'_1.mpr ⟨Nat.zero_le _, by omega⟩)
      rw [decide_eq_true_eq] at hmem
      rw [List.getD_eq_getElem _ _ hn] at hmem
      exact hmem

/-- Folding `min` over a list bounded below by the seed returns the seed. -/
theorem foldl_min_of_le {l : List Nat} : ∀ {a : Nat}, (∀ x ∈ l, a ≤ x) → l.foldl min a = a := by
  induction l with
  | nil => intro a _; rfl
  | cons x xs ih =>
    intro a h
    rw [List.foldl_cons, min_eq_left (h x (by simp))]
    exact ih (fun y hy => h y (by simp [hy]))

/-- On the candidate range `range(2, max_k + 1)`, the source's
`k_values[0] if k_values else 2` equals the spec's "smallest candidate k, or
2 when there are no candidates". -/
theorem headD_range'_eq_smallest (m : Nat) :
    (List.range' 2 m).headD 2 = smallest_or_two (List.range' 2 m) := by
  cases m with
  | zero => rfl
  | succ m =>
    rw [List.range'_succ]
    show 2 = (List.range' 3 m).foldl min 2
    refine (foldl_min_of_le ?_).symm
    intro x hx
    have hb := List.mem_range'_1.mp hx
    omega

/-- C4: on the candidate k list `range(2, max_k + 1)` (modelled as
`List.range' 2 m`), `_find_elbow_point` computes exactly the specification's
procedure: with fewer than 3 inertia samples it returns the smallest
candidate k (2 with no candidates); otherwise it takes the first difference
of the inertia sequence, then the second difference, locates the first
position whose second-difference value is most negative, offsets it by one
and indexes the candidate list there. -/
theorem find_elbow_point_matches_spec (m : Nat) (inertias : List Rat) :
    find_elbow_point (List.range' 2 m) inertias
      = find_elbow_point_spec (List.range' 2 m) inertias := by
  unfold find_elbow_point find_elbow_point_spec
  split
  · exact headD_range'_eq_smallest m
  · rw [np_argmin_eq_spec_argmin]

/-- C10: with at least 3 inertia samples and a candidate list of the same
length, the elbow index `np.argmin(diff_diffs) + 1` is strictly within the
candidate list's bounds (the second-difference list is two shorter than the
inertia list), so `k_values[elbow_idx]` never fails and `_find_elbow_point`
returns that element. -/
theorem find_elbow_point_index_inbounds (k_values : List Nat) (inertias : List Rat)
    (h3 : 3 ≤ inertias.length) (hlen : k_values.length = inertias.length) :
    np_argmin (np_diff (np_diff inertias)) + 1 < k_values.length ∧
    find_elbow_point k_values inertias
      = k_values.getD (np_argmin (np_diff (np_diff inertias)) + 1) 0 := by
  have hdd : (np_diff (np_diff inertias)).length = inertias.length - 2 := by
    rw [np_diff_length, np_diff_length]
    omega
  have hne : np_diff (np_diff inertias) ≠ [] := by
    intro h0
    rw [h0] at hdd
    simp at hdd
    omega
  have harg := np_argmin_lt_length hne
  rw [hdd] at harg
  constructor
  · omega
  · unfold find_elbow_point
    rw [if_neg (by omega)]

/-- Witness for C10 at a concrete inertia curve of 4 samples with candidate
k values 2..5. -/
theorem find_elbow_point_index_inbounds_witness :
    (3 ≤ ([100, 50, 40, 38] : List Rat).length ∧
      ([2, 3, 4, 5] : List Nat).length = ([100, 50, 40, 38] : List Rat).length) ∧
    (np_argmin (np_diff (np_diff ([100, 50, 40, 38] : List Rat))) + 1
        < ([2, 3, 4, 5] : List Nat).length ∧
      find_elbow_point [2, 3, 4, 5] [100, 50, 40, 38]
        = ([2, 3, 4, 5] : List Nat).getD
            (np_argmin (np_diff (np_diff ([100, 50, 40, 38] : List Rat))) + 1) 0) :=
  ⟨⟨by decide, by decide⟩,
   find_elbow_point_index_inbounds [2, 3, 4, 5] [100, 50, 40, 38] (by decide) (by decide)⟩

/-! ### Group membership and disjointness (C1, C2) -/

/-- Membership in a k-means group: the keyword is paired with label `i` in
the zipped keyword/label list. -/
theorem mem_group_members {kws : List Keyword} {labels : List Nat} {i : Nat}
    {kw : Keyword} :
    kw ∈ group_members kws labels i ↔ (kw, i) ∈ kws.zip labels := by
  unfold group_members
  rw [List.mem_map]
  constructor
  · rintro ⟨p, hp, rfl⟩
    rw [List.mem_filter] at hp
    obtain ⟨hmem, hlab⟩ := hp
    have h2 : p.2 = i := by simpa using hlab
    rcases p with ⟨kw, lab⟩
    cases h2
    exact hmem
  · intro h
    exact ⟨(kw, i), List.mem_filter.mpr ⟨h, by simp⟩, rfl⟩

/-- With pairwise distinct terms, a term determines the k-means label: two
zip entries with equal terms carry equal labels. -/
theorem zip_label_eq_of_term_eq {kws : List Keyword} {labels : List Nat}
    (hdist : (kws.map (fun kw => kw.term)).Nodup) {k₁ k₂ : Keyword} {i j : Nat}
    (h₁ : (k₁, i) ∈ kws.zip labels) (h₂ : (k₂, j) ∈ kws.zip labels)
    (hterm : k₁.term = k₂.term) : i = j := by
  rw [List.mem_iff_getElem] at h₁ h₂
  obtain ⟨n₁, hn₁, he₁⟩ := h₁
  obtain ⟨n₂, hn₂, he₂⟩ := h₂
  have hb₁ : n₁ < kws.length := by
    rw [List.length_zip, lt_min_iff] at hn₁
    exact hn₁.1
  have hl₁ : n₁ < labels.length := by
    rw [List.length_zip, lt_min_iff] at hn₁
    exact hn₁.2
  have hb₂ : n₂ < kws.length := by
    rw [List.length_zip, lt_min_iff] at hn₂
    exact hn₂.1
  have hl₂ : n₂ < labels.length := by
    rw [List.length_zip, lt_min_iff] at hn₂
    exact hn₂.2
  rw [List.getElem_zip] at he₁ he₂
  obtain ⟨hk₁, hlab₁⟩ := Prod.mk.injEq .. ▸ he₁
  obtain ⟨hk₂, hlab₂⟩ := Prod.mk.injEq .. ▸ he₂
  have hm₁ : n₁ < (kws.map (fun kw => kw.term)).length := by
    rw [List.length_map]
    exact hb₁
  have hm₂ : n₂ < (kws.map (fun kw => kw.term)).length := by
    rw [List.length_map]
    exact hb₂
  have hmapeq : (kws.map (fun kw => kw.term))[n₁] = (kws.map (fun kw => kw.term))[n₂] := by
    rw [List.getElem_map, List.getElem_map, hk₁, hk₂, hterm]
  have hnn : n₁ = n₂ := (hdist.getElem_inj_iff).mp hmapeq
  subst hnn
  rw [← hlab₁, ← hlab₂]

/-- With pairwise distinct terms, members of different k-means groups have
different terms. -/
theorem group_members_term_disjoint {kws : List Keyword} {labels : List Nat}
    (hdist : (kws.map (fun kw => kw.term)).Nodup) {i j : Nat} (hij : i ≠ j)
    {k₁ k₂ : Keyword} (h₁ : k₁ ∈ group_members kws labels i)
    (h₂ : k₂ ∈ group_members kws labels j) : k₁.term ≠ k₂.term := by
  intro hterm
  exact hij (zip_label_eq_of_term_eq hdist (mem_group_members.mp h₁)
    (mem_group_members.mp h₂) hterm)

/-- `filterMap` maps a pairwise relation on sources to one on the kept
images. -/
theorem pairwise_filterMap_of_pairwise {α β : Type} (f : α → Option β)
    {R : α → α → Prop} {S : β → β → Prop}
    (hf : ∀ a b, R a b → ∀ x, f a = some x → ∀ y, f b = some y → S x y) :
    ∀ l : List α, l.Pairwise R → (l.filterMap f).Pairwise S := by
  intro l hl
  induction l with
  | nil => simp
  | cons a l ih =>
    rw [List.pairwise_cons] at hl
    obtain ⟨ha, hl⟩ := hl
    cases hfa : f a with
    | none =>
      rw [List.filterMap_cons_none hfa]
      exact ih hl
    | some x =>
      rw [List.filterMap_cons_some hfa, List.pairwise_cons]
      refine ⟨?_, ih hl⟩
      intro y hy
      rw [List.mem_filterMap] at hy
      obtain ⟨b, hb, hfb⟩ := hy
      exact hf a b (ha b hb) x hfa y hfb

/-- C1: for an input keyword list with pairwise distinct terms, the returned
clusters partition a subset of the input terms: every member term of every
returned cluster is the term of some input keyword, and no term is a member
of two different returned clusters (the member-term lists are pairwise
disjoint along the returned list). -/
theorem cluster_keywords_partition (km : KMeansOracle) (ts : Nat → String)
    (cfg : ClusterConfig) (kws : List Keyword)
    (hdist : (kws.map (fun kw => kw.term)).Nodup) :
    (∀ c ∈ cluster_keywords km ts cfg kws, ∀ t ∈ c.keywords,
        ∃ kw, kw ∈ kws ∧ kw.term = t) ∧
    (cluster_keywords km ts cfg kws).Pairwise
      (fun c₁ c₂ => ∀ t, t ∈ c₁.keywords → t ∉ c₂.keywords) := by
  constructor
  · intro c hc t ht
    rw [mem_cluster_keywords] at hc
    obtain ⟨-, i, -, -, rfl⟩ := hc
    have ht2 : t ∈ (group_members kws (km.labels (optimal_k km cfg kws.length)) i).map
        (fun kw => kw.term) := ht
    rw [List.mem_map] at ht2
    obtain ⟨kw, hkw, rfl⟩ := ht2
    exact ⟨kw, (List.of_mem_zip (mem_group_members.mp hkw)).1, rfl⟩
  · unfold cluster_keywords
    split
    · simp
    · refine pairwise_filterMap_of_pairwise _ (R := fun i j : Nat => i ≠ j) ?_ _
        ((List.pairwise_lt_range _).imp Nat.ne_of_lt)
      intro a b hab x hx y hy
      split at hx
      · split at hy
        · obtain rfl := Option.some.inj hx
          obtain rfl := Option.some.inj hy
          intro t ht₁ ht₂
          have ht₁m : t ∈ (group_members kws (km.labels (optimal_k km cfg kws.length)) a).map
              (fun kw => kw.term) := ht₁
          have ht₂m : t ∈ (group_members kws (km.labels (optimal_k km cfg kws.length)) b).map
              (fun kw => kw.term) := ht₂
          rw [List.mem_map] at ht₁m ht₂m
          obtain ⟨kw₁, hkw₁, hteq₁⟩ := ht₁m
          obtain ⟨kw₂, hkw₂, hteq₂⟩ := ht₂m
          exact group_members_term_disjoint hdist hab hkw₁ hkw₂ (hteq₁.trans hteq₂.symm)
        · exact Option.noConfusion hy
      · exact Option.noConfusion hx

/-- Witness for C1 at a concrete three-keyword input with distinct terms,
the default configuration, and an oracle putting every keyword in group 0. -/
theorem cluster_keywords_partition_witness :
    (([⟨"a", "alpha one", 1, 1, 0⟩, ⟨"b", "beta two", 2, 2, 0⟩,
       ⟨"c", "gamma three", 3, 3, 0⟩] : List Keyword).map (fun kw => kw.term)).Nodup ∧
    ((∀ c ∈ cluster_keywords ⟨fun _ => 0, fun _ => [0, 0, 0], fun _ _ => []⟩
          (fun _ => "T") default_config
          [⟨"a", "alpha one", 1, 1, 0⟩, ⟨"b", "beta two", 2, 2, 0⟩,
           ⟨"c", "gamma three", 3, 3, 0⟩],
        ∀ t ∈ c.keywords,
          ∃ kw, kw ∈ ([⟨"a", "alpha one", 1, 1, 0⟩, ⟨"b", "beta two", 2, 2, 0⟩,
            ⟨"c", "gamma three", 3, 3, 0⟩] : List Keyword) ∧ kw.term = t) ∧
      (cluster_keywords ⟨fun _ => 0, fun _ => [0, 0, 0], fun _ _ => []⟩
          (fun _ => "T") default_config
          [⟨"a", "alpha one", 1, 1, 0⟩, ⟨"b", "beta two", 2, 2, 0⟩,
           ⟨"c", "gamma three", 3, 3, 0⟩]).Pairwise
        (fun c₁ c₂ => ∀ t, t ∈ c₁.keywords → t ∉ c₂.keywords)) :=
  ⟨by decide,
   cluster_keywords_partition ⟨fun _ => 0, fun _ => [0, 0, 0], fun _ _ => []⟩
     (fun _ => "T") default_config
     [⟨"a", "alpha one", 1, 1, 0⟩, ⟨"b", "beta two", 2, 2, 0⟩,
      ⟨"c", "gamma three", 3, 3, 0⟩] (by decide)⟩

/-- C2: for an input keyword list with pairwise distinct terms, every
returned cluster has at least `min_cluster_size` member terms, and every
k-means group smaller than the minimum is dropped: none of its keywords'
terms appears in any returned cluster. -/
theorem cluster_keywords_min_size (km : KMeansOracle) (ts : Nat → String)
    (cfg : ClusterConfig) (kws : List Keyword)
    (hdist : (kws.map (fun kw => kw.term)).Nodup) :
    (∀ c ∈ cluster_keywords km ts cfg kws, cfg.min_cluster_size ≤ c.keywords.length) ∧
    (∀ i, (group_members kws (km.labels (optimal_k km cfg kws.length)) i).length
            < cfg.min_cluster_size →
      ∀ kw ∈ group_members kws (km.labels (optimal_k km cfg kws.length)) i,
        ∀ c ∈ cluster_keywords km ts cfg kws, kw.term ∉ c.keywords) := by
  constructor
  · intro c hc
    rw [mem_cluster_keywords] at hc
    obtain ⟨-, i, -, hsz, rfl⟩ := hc
    have hlen : (mk_cluster ts km (optimal_k km cfg kws.length) i
        (group_members kws (km.labels (optimal_k km cfg kws.length)) i)).keywords.length
          = (group_members kws (km.labels (optimal_k km cfg kws.length)) i).length :=
      List.length_map _ _
    rw [hlen]
    exact hsz
  · intro i hsmall kw hkw c hc ht
    rw [mem_cluster_keywords] at hc
    obtain ⟨-, j, -, hsz, rfl⟩ := hc
    have ht2 : kw.term ∈ (group_members kws (km.labels (optimal_k km cfg kws.length)) j).map
        (fun x => x.term) := ht
    rw [List.mem_map] at ht2
    obtain ⟨kw₂, hkw₂, hteq⟩ := ht2
    by_cases hij : i = j
    · subst hij
      omega
    · exact group_members_term_disjoint hdist hij hkw hkw₂ hteq.symm

/-- Witness for C2 at a concrete four-keyword input whose oracle labels put
three keywords in group 0 and one keyword in group 1 (dropped). -/
theorem cluster_keywords_min_size_witness :
    (([⟨"a", "red car", 1, 1, 0⟩, ⟨"b", "blue car", 2, 2, 0⟩,
       ⟨"c", "green car", 3, 3, 0⟩, ⟨"d", "old boat", 4, 4, 0⟩] : List Keyword).map
        (fun kw => kw.term)).Nodup ∧
    ((∀ c ∈ cluster_keywords ⟨fun _ => 0, fun _ => [0, 0, 0, 1], fun _ _ => []⟩
          (fun _ => "T") default_config
          [⟨"a", "red car", 1, 1, 0⟩, ⟨"b", "blue car", 2, 2, 0⟩,
           ⟨"c", "green car", 3, 3, 0⟩, ⟨"d", "old boat", 4, 4, 0⟩],
        default_config.min_cluster_size ≤ c.keywords.length) ∧
      (∀ i, (group_members
              [⟨"a", "red car", 1, 1, 0⟩, ⟨"b", "blue car", 2, 2, 0⟩,
               ⟨"c", "green car", 3, 3, 0⟩, ⟨"d", "old boat", 4, 4, 0⟩]
              ((⟨fun _ => 0, fun _ => [0, 0, 0, 1], fun _ _ => []⟩ : KMeansOracle).labels
                (optimal_k ⟨fun _ => 0, fun _ => [0, 0, 0, 1], fun _ _ => []⟩
                  default_config
                  ([⟨"a", "red car", 1, 1, 0⟩, ⟨"b", "blue car", 2, 2, 0⟩,
                    ⟨"c", "green car", 3, 3, 0⟩, ⟨"d", "old boat", 4, 4, 0⟩] : List Keyword).length))
              i).length < default_config.min_cluster_size →
        ∀ kw ∈ group_members
              [⟨"a", "red car", 1, 1, 0⟩, ⟨"b", "blue car", 2, 2, 0⟩,
               ⟨"c", "green car", 3, 3, 0⟩, ⟨"d", "old boat", 4, 4, 0⟩]
              ((⟨fun _ => 0, fun _ => [0, 0, 0, 1], fun _ _ => []⟩ : KMeansOracle).labels
                (optimal_k ⟨fun _ => 0, fun _ => [0, 0, 0, 1], fun _ _ => []⟩
                  default_config
                  ([⟨"a", "red car", 1, 1, 0⟩, ⟨"b", "blue car", 2, 2, 0⟩,
                    ⟨"c", "green car", 3, 3, 0⟩, ⟨"d", "old boat", 4, 4, 0⟩] : List Keyword).length))
              i,
          ∀ c ∈ cluster_keywords ⟨fun _ => 0, fun _ => [0, 0, 0, 1], fun _ _ => []⟩
              (fun _ => "T") default_config
              [⟨"a", "red car", 1, 1, 0⟩, ⟨"b", "blue car", 2, 2, 0⟩,
               ⟨"c", "green car", 3, 3, 0⟩, ⟨"d", "old boat", 4, 4, 0⟩],
            kw.term ∉ c.keywords)) :=
  ⟨by decide,
   cluster_keywords_min_size ⟨fun _ => 0, fun _ => [0, 0, 0, 1], fun _ _ => []⟩
     (fun _ => "T") default_config
     [⟨"a", "red car", 1, 1, 0⟩, ⟨"b", "blue car", 2, 2, 0⟩,
      ⟨"c", "green car", 3, 3, 0⟩, ⟨"d", "old boat", 4, 4, 0⟩] (by decide)⟩

/-! ### Cluster naming heuristic (C6) -/

/-- The accumulating word-collection loop equals flatten-of-map. -/
theorem foldl_append_eq_flatten_map {α β : Type} (f : α → List β) :
    ∀ (l : List α) (init : List β),
      l.foldl (fun acc t => acc ++ f t) init = init ++ (l.map f).flatten := by
  intro l
  induction l with
  | nil => intro init; simp
  | cons a l ih =>
    intro init
    rw [List.foldl_cons, ih, List.map_cons, List.flatten_cons, List.append_assoc]

/-- A fold whose step is guarded by a predicate equals the unguarded fold
over the filtered list. -/
theorem foldl_guard_eq_foldl_filter {α β : Type} (p : α → Prop) [DecidablePred p]
    (g : β → α → β) :
    ∀ (l : List α) (init : β),
      l.foldl (fun acc w => if p w then g acc w else acc) init
        = (l.filter (fun w => decide (p w))).foldl g init := by
  intro l
  induction l with
  | nil => intro init; rfl
  | cons a l ih =>
    intro init
    by_cases hpa : p a
    · rw [List.foldl_cons, if_pos hpa, List.filter_cons, if_pos (by simpa using hpa),
        List.foldl_cons, ih]
    · rw [List.foldl_cons, if_neg hpa, List.filter_cons, if_neg (by simpa using hpa), ih]

/-- `dedup_first` keeps exactly the elements of the list. -/
theorem mem_dedup_first {x : String} : ∀ {l : List String}, x ∈ dedup_first l ↔ x ∈ l := by
  intro l
  induction l with
  | nil => simp [dedup_first]
  | cons a l ih =>
    simp only [dedup_first, List.mem_cons]
    constructor
    · rintro (rfl | hx)
      · exact Or.inl rfl
      · rw [List.mem_filter] at hx
        exact Or.inr (ih.mp hx.1)
    · rintro (rfl | hx)
      · exact Or.inl rfl
      · by_cases hxa : x = a
        · exact Or.inl hxa
        · exact Or.inr (List.mem_filter.mpr ⟨ih.mpr hx, by simpa using hxa⟩)

/-- Appending one element to the input of `dedup_first`: a new element is
appended at the end, a known one changes nothing. -/
theorem dedup_first_append_single (w : String) :
    ∀ l : List String, dedup_first (l ++ [w])
      = if w ∈ l then dedup_first l else dedup_first l ++ [w] := by
  intro l
  induction l with
  | nil => simp [dedup_first]
  | cons a l ih =>
    rw [List.cons_append]
    simp only [dedup_first]
    rw [ih]
    by_cases hw : w ∈ l
    · rw [if_pos hw, if_pos (List.mem_cons_of_mem _ hw)]
    · rw [if_neg hw]
      by_cases hwa : w = a
      · subst hwa
        rw [if_pos (List.mem_cons_self _ _), List.filter_append]
        simp
      · have hwal : w ∉ a :: l := by
          simp [hwa, hw]
        rw [if_neg hwal, List.filter_append]
        simp only [List.filter_cons, List.filter_nil]
        rw [if_pos (by simpa using hwa)]
        rfl

/-- Appending one element adds one to its count and leaves other counts. -/
theorem count_in_append_single (l : List String) (w x : String) :
    count_in (l ++ [w]) x = count_in l x + if w = x then 1 else 0 := by
  unfold count_in
  rw [List.countP_append]
  simp [List.countP_cons]

/-- An absent element has count 0. -/
theorem count_in_eq_zero_of_not_mem {l : List String} {w : String} (h : w ∉ l) :
    count_in l w = 0 := by
  unfold count_in
  rw [List.countP_eq_zero]
  intro a ha
  simp only [decide_eq_true_eq]
  rintro rfl
  exact h ha

/-- The dict-building loop of `_generate_cluster_name` produces exactly the
first-occurrence-ordered association of each distinct word with its count. -/
theorem foldl_incr_count_eq :
    ∀ l : List String, l.foldl incr_count []
      = (dedup_first l).map (fun w => (w, count_in l w)) := by
  intro l
  induction l using List.reverseRecOn with
  | nil => rfl
  | append_singleton l w ih =>
    rw [List.foldl_append, List.foldl_cons, List.foldl_nil, ih,
      dedup_first_append_single]
    by_cases hw : w ∈ l
    · rw [if_pos hw]
      unfold incr_count
      rw [if_pos ?hany]
      case hany =>
        rw [List.any_eq_true]
        refine ⟨(w, count_in l w), ?_, by simp⟩
        rw [List.mem_map]
        exact ⟨w, mem_dedup_first.mpr hw, rfl⟩
      rw [List.map_map]
      refine List.map_congr_left ?_
      intro x hx
      by_cases hxw : x = w
      · subst hxw
        simp [count_in_append_single]
      · simp only [Function.comp_apply]
        rw [if_neg hxw, count_in_append_single, if_neg (fun h => hxw h.symm), Nat.add_zero]
    · rw [if_neg hw]
      unfold incr_count
      rw [if_neg ?hnoany]
      case hnoany =>
        rw [List.any_eq_true]
        rintro ⟨p, hp, hpw⟩
        rw [List.mem_map] at hp
        obtain ⟨x, hx, rfl⟩ := hp
        simp only [decide_eq_true_eq] at hpw
        exact hw (hpw ▸ mem_dedup_first.mp hx)
      rw [List.map_append]
      congr 1
      · refine List.map_congr_left ?_
        intro x hx
        have hxl : x ∈ l := mem_dedup_first.mp hx
        have hxw : w ≠ x := fun h => hw (h ▸ hxl)
        rw [count_in_append_single, if_neg hxw, Nat.add_zero]
      · rw [List.map_cons, List.map_nil, count_in_append_single,
          count_in_eq_zero_of_not_mem hw, if_pos rfl]

/-- C6 counterexample: with the single member term "ab" no token survives the
length filter, and the generated name is "Cluster: ab" — the code prepends
the "Cluster: " prefix in the fallback case too — while the claim says the
name is the first member term "ab" verbatim. -/
theorem generate_cluster_name_fallback_counterexample :
    generate_cluster_name [⟨"k1", "ab", 0, 0, 0⟩] = "Cluster: ab" ∧
    "Cluster: ab" ≠ "ab" :=
  ⟨rfl, by decide⟩

/-- C6 amended: the generated name is obtained by lowercasing and splitting
every member term on whitespace, discarding tokens of length ≤ 2, counting
token frequency across the whole cluster, taking the top 3 most frequent
tokens and joining them as "Cluster: token1 token2 token3"; when no token
survives the length filter, the name is "Cluster: " followed by the first
member term (not the first member term verbatim). -/
theorem generate_cluster_name_matches_amended_spec (keywords : List Keyword) :
    generate_cluster_name keywords = generate_cluster_name_spec keywords := by
  unfold generate_cluster_name generate_cluster_name_spec
  simp only []
  rw [foldl_append_eq_flatten_map py_lower_split, List.nil_append,
    foldl_guard_eq_foldl_filter (fun w : String => 2 < w.length) incr_count,
    foldl_incr_count_eq]

/-- Witness for C5 at a concrete three-keyword input: the single returned
cluster is exhibited (its average fields written as the `np_mean`
expressions they evaluate to) and its averages are certified over exactly
its member keywords. -/
theorem cluster_keywords_averages_witness :
    (⟨"cluster_0_T", "Cluster: car wash fast",
      "Keywords related to: fast car wash, car wash near, best car wash",
      ["fast car wash", "car wash near", "best car wash"],
      none, some [], 3,
      np_mean (([⟨"a", "fast car wash", 1, 2, 1⟩, ⟨"b", "car wash near", 3, 4, 2⟩,
        ⟨"c", "best car wash", 5, 6, 3⟩] : List Keyword).map
          (fun kw => (kw.search_volume : Rat))),
      np_mean (([⟨"a", "fast car wash", 1, 2, 1⟩, ⟨"b", "car wash near", 3, 4, 2⟩,
        ⟨"c", "best car wash", 5, 6, 3⟩] : List Keyword).map
          (fun kw => (kw.difficulty : Rat))),
      np_mean (([⟨"a", "fast car wash", 1, 2, 1⟩, ⟨"b", "car wash near", 3, 4, 2⟩,
        ⟨"c", "best car wash", 5, 6, 3⟩] : List Keyword).map
          (fun kw => kw.cpc))⟩ : KeywordCluster)
      ∈ cluster_keywords ⟨fun _ => 0, fun _ => [0, 0, 0], fun _ _ => []⟩
          (fun _ => "T") default_config
          [⟨"a", "fast car wash", 1, 2, 1⟩, ⟨"b", "car wash near", 3, 4, 2⟩,
           ⟨"c", "best car wash", 5, 6, 3⟩] ∧
    ∃ members : List Keyword,
      (∀ kw ∈ members,
        kw ∈ ([⟨"a", "fast car wash", 1, 2, 1⟩, ⟨"b", "car wash near", 3, 4, 2⟩,
          ⟨"c", "best car wash", 5, 6, 3⟩] : List Keyword)) ∧
      (["fast car wash", "car wash near", "best car wash"] : List String)
          = members.map (fun kw => kw.term) ∧
      (3 : Nat) = members.length ∧
      np_mean (([⟨"a", "fast car wash", 1, 2, 1⟩, ⟨"b", "car wash near", 3, 4, 2⟩,
        ⟨"c", "best car wash", 5, 6, 3⟩] : List Keyword).map
          (fun kw => (kw.search_volume : Rat)))
        = np_mean (members.map (fun kw => (kw.search_volume : Rat))) ∧
      np_mean (([⟨"a", "fast car wash", 1, 2, 1⟩, ⟨"b", "car wash near", 3, 4, 2⟩,
        ⟨"c", "best car wash", 5, 6, 3⟩] : List Keyword).map
          (fun kw => (kw.difficulty : Rat)))
        = np_mean (members.map (fun kw => (kw.difficulty : Rat))) ∧
      np_mean (([⟨"a", "fast car wash", 1, 2, 1⟩, ⟨"b", "car wash near", 3, 4, 2⟩,
        ⟨"c", "best car wash", 5, 6, 3⟩] : List Keyword).map
          (fun kw => kw.cpc))
        = np_mean (members.map (fun kw => kw.cpc)) :=
  ⟨by exact List.mem_singleton_self _,
   cluster_keywords_averages ⟨fun _ => 0, fun _ => [0, 0, 0], fun _ _ => []⟩
     (fun _ => "T") default_config
     [⟨"a", "fast car wash", 1, 2, 1⟩, ⟨"b", "car wash near", 3, 4, 2⟩,
      ⟨"c", "best car wash", 5, 6, 3⟩]
     ⟨"cluster_0_T", "Cluster: car wash fast",
      "Keywords related to: fast car wash, car wash near, best car wash",
      ["fast car wash", "car wash near", "best car wash"],
      none, some [], 3,
      np_mean (([⟨"a", "fast car wash", 1, 2, 1⟩, ⟨"b", "car wash near", 3, 4, 2⟩,
        ⟨"c", "best car wash", 5, 6, 3⟩] : List Keyword).map
          (fun kw => (kw.search_volume : Rat))),
      np_mean (([⟨"a", "fast car wash", 1, 2, 1⟩, ⟨"b", "car wash near", 3, 4, 2⟩,
        ⟨"c", "best car wash", 5, 6, 3⟩] : List Keyword).map
          (fun kw => (kw.difficulty : Rat))),
      np_mean (([⟨"a", "fast car wash", 1, 2, 1⟩, ⟨"b", "car wash near", 3, 4, 2⟩,
        ⟨"c", "best car wash", 5, 6, 3⟩] : List Keyword).map
          (fun kw => kw.cpc))⟩
     (by exact List.mem_singleton_self _)⟩
